import Mathlib

/-!
# GitHubWatchdog — verification of the specification against the code

Shallow embedding of the crawl-coordination and classification engine of
GitHubWatchdog (Go).  Times are modelled as integers (seconds); Go's
`time.Time` zero value is modelled as `0` where the code tests `IsZero`.
Each section embeds one component, translated from the Go source:

* `APICache` (internal/github/cache.go)
* `RateLimiter` (internal/github/rate_limiter.go)
* account analysis (internal/analyzer/analyzer.go)
* repository content checkers (internal/analyzer, internal/github REST client)
* the processed-repository ledger (internal/db)
* the crawl loop (cmd/watchdog, internal/processor)
-/

/-! ## ResponseCache — internal/github/cache.go -/

/-- A cached API response: payload plus fetch time (`models.CacheEntry`). -/
structure APICacheEntry where
  data : String
  timestamp : Int
deriving DecidableEq

/-- Go `APICache.Get`: return the entry for `key` only when its fetch time is
within `ttl` of `now` (`time.Since(entry.Timestamp) < ttl`). -/
def apiCacheGet (cache : List (String × APICacheEntry)) (key : String)
    (ttl now : Int) : Option String :=
  match cache.lookup key with
  | some e => if now - e.timestamp < ttl then some e.data else none
  | none => none

/-- Go `APICache.Set`: store the payload unconditionally, stamped with the
current time.  The newest binding shadows older ones, matching
`sync.Map.Store` overwrite semantics under `List.lookup`. -/
def apiCacheSet (cache : List (String × APICacheEntry)) (key : String)
    (data : String) (now : Int) : List (String × APICacheEntry) :=
  (key, ⟨data, now⟩) :: cache

/-! ## QuotaTracker — internal/github/rate_limiter.go -/

/-- The mutable fields of `RateLimiter`. -/
structure RateLimiterState where
  coreRemaining : Int
  coreReset : Int
  searchRemaining : Int
  searchReset : Int
  coreLimitBuffer : Int
  searchLimitBuffer : Int
  lastCheck : Int
  checkInterval : Int
deriving DecidableEq

/-- Observable outcome of `CheckRateLimit`: either it returns at once, or it
sleeps for the given duration first.  The Go method always returns `true`. -/
inductive AdmitOutcome where
  | proceed
  | waited (duration : Int)
deriving DecidableEq

/-- Go `RateLimiter.CheckRateLimit`, translated branch for branch: pick the
budget for `apiType` ("search" vs core); if `remaining < buffer` fall through
to the wait logic, otherwise return at once; if the reset time is in the past
return at once; otherwise sleep `until(reset) + 5s` and set the budget's
remaining count to `buffer + 1`. -/
def checkRateLimit (st : RateLimiterState) (apiType : String) (now : Int) :
    AdmitOutcome × RateLimiterState :=
  let remaining := if apiType = "search" then st.searchRemaining else st.coreRemaining
  let buffer := if apiType = "search" then st.searchLimitBuffer else st.coreLimitBuffer
  let resetTime := if apiType = "search" then st.searchReset else st.coreReset
  if remaining < buffer then
    if now > resetTime then
      (.proceed, st)
    else
      let waitTime := resetTime - now + 5
      if apiType = "search" then
        (.waited waitTime, { st with searchRemaining := st.searchLimitBuffer + 1 })
      else
        (.waited waitTime, { st with coreRemaining := st.coreLimitBuffer + 1 })
  else
    (.proceed, st)

/-- Go `RateLimiter.UpdateFromResponse`: install the `X-RateLimit-Remaining` /
`X-RateLimit-Reset` header values (absent or unparsable headers are `none`)
into the budget matching the request URL, and stamp `lastCheck`. -/
def updateFromResponse (st : RateLimiterState) (isSearchRequest : Bool)
    (remainingHeader : Option Int) (resetHeader : Option Int) (now : Int) :
    RateLimiterState :=
  let st1 :=
    match remainingHeader with
    | some v =>
      if isSearchRequest then { st with searchRemaining := v }
      else { st with coreRemaining := v }
    | none => st
  let st2 :=
    match resetHeader with
    | some v =>
      if isSearchRequest then { st1 with searchReset := v }
      else { st1 with coreReset := v }
    | none => st1
  { st2 with lastCheck := now }

/-- Server-reported rate-limit snapshot (body of `GET /rate_limit`). -/
structure RateLimitSnapshot where
  coreRemaining : Int
  coreReset : Int
  searchRemaining : Int
  searchReset : Int
deriving DecidableEq

/-- Go `RateLimiter.FetchRateLimits`: a no-op within `checkInterval` of the last
check; otherwise both budgets are resynchronized from the server snapshot. -/
def fetchRateLimits (st : RateLimiterState) (now : Int)
    (snap : RateLimitSnapshot) : RateLimiterState :=
  if now - st.lastCheck < st.checkInterval then st
  else
    { st with
      coreRemaining := snap.coreRemaining
      coreReset := snap.coreReset
      searchRemaining := snap.searchRemaining
      searchReset := snap.searchReset
      lastCheck := now }


/-! ## HeuristicEngine — internal/analyzer/analyzer.go -/

/-- Go `repoData`: minimal repository information fetched per owned repo. -/
structure RepoData where
  name : String
  diskUsage : Int
  stargazerCount : Int
deriving DecidableEq

/-- Heuristic thresholds (`const` block of internal/analyzer/analyzer.go). -/
def minTotalStarsForOriginal : Int := 10

/-- Low-content repository count threshold of the first rule. -/
def minEmptyCountForOriginal : Int := 20

/-- Low-content-but-starred count threshold of the second rule. -/
def minSuspiciousReposCountForNew : Int := 5

/-- Recent-contribution ceiling of the second rule. -/
def maxContributionsForNew : Int := 5

/-- Star threshold of the third rule. -/
def minTotalStarsForRecent : Int := 10

/-- Account-age window of the third rule: 10 days, in seconds (the Go code
holds it as a `time.Duration`; only the common unit matters here). -/
def maxAccountAgeForRecent : Int := 10 * 24 * 60 * 60

/-- Loop body of `computeRepoMetrics`, threading the three accumulators
exactly as the Go `for` loop does. -/
def computeRepoMetricsAux (repos : List RepoData)
    (totalStars emptyCount suspiciousEmptyCount : Int) : Int × Int × Int :=
  match repos with
  | [] => (totalStars, emptyCount, suspiciousEmptyCount)
  | r :: rs =>
    let totalStars := totalStars + r.stargazerCount
    if r.diskUsage < 10 then
      if r.stargazerCount ≥ 5 then
        computeRepoMetricsAux rs totalStars (emptyCount + 1) (suspiciousEmptyCount + 1)
      else
        computeRepoMetricsAux rs totalStars (emptyCount + 1) suspiciousEmptyCount
    else
      computeRepoMetricsAux rs totalStars emptyCount suspiciousEmptyCount

/-- Go `computeRepoMetrics`: total stars, low-content repository count
(`DiskUsage < emptyThreshold` with `emptyThreshold = 10`), and low-content
repositories with at least 5 stars. -/
def computeRepoMetrics (repos : List RepoData) : Int × Int × Int :=
  computeRepoMetricsAux repos 0 0 0

/-- Go `AnalysisResult`: aggregated metrics for a GitHub user. -/
structure AnalysisResult where
  suspicious : Bool
  totalStars : Int
  emptyCount : Int
  suspiciousEmptyCount : Int
  contributions : Int
  flagOriginal : Bool
  flagNew : Bool
  flagRecent : Bool
deriving DecidableEq

/-- The result returned by `AnalyzeUser` for a user with no repositories:
`AnalysisResult{Suspicious: false}`, every other field at its Go zero
value. -/
def emptyAnalysisResult : AnalysisResult :=
  ⟨false, 0, 0, 0, 0, false, false, false⟩

/-- The metric-to-verdict core of `Analyzer.AnalyzeUser`: the early return
for a repository-less user, then the three heuristic flags and their
disjunction.  `now - createdAt` stands for `time.Since(data.CreatedAt)`. -/
def analyzeUserPure (now createdAt contributions : Int)
    (repos : List RepoData) : AnalysisResult :=
  if repos = [] then emptyAnalysisResult
  else
    let m := computeRepoMetrics repos
    let totalStars := m.1
    let emptyCount := m.2.1
    let suspiciousEmptyCount := m.2.2
    let accountAge := now - createdAt
    let flagOriginal := decide (totalStars ≥ minTotalStarsForOriginal) &&
      decide (emptyCount ≥ minEmptyCountForOriginal)
    let flagNew := decide (suspiciousEmptyCount ≥ minSuspiciousReposCountForNew) &&
      decide (contributions ≤ maxContributionsForNew)
    let flagRecent := decide (accountAge < maxAccountAgeForRecent) &&
      decide (totalStars ≥ minTotalStarsForRecent)
    let suspicious := flagOriginal || flagNew || flagRecent
    ⟨suspicious, totalStars, emptyCount, suspiciousEmptyCount, contributions,
      flagOriginal, flagNew, flagRecent⟩

/-- Go `userData`: fetched GitHub user details. -/
structure UserData where
  createdAt : Int
  contributions : Int
  repositories : List RepoData
deriving DecidableEq

/-- The two result maps of `Analyzer` (`userCache` and `processedUsers`);
newest binding shadows older ones, as with `sync.Map.Store`. -/
structure AnalyzerState where
  userCache : List (String × AnalysisResult)
  processedUsers : List (String × AnalysisResult)
deriving DecidableEq

/-- Go `Analyzer.AnalyzeUser` as a state-passing function over a fetch oracle
`fetch` (the outcome of `fetchUserData`).  Returns the result, the updated
state, and how many fetch sequences the call performed (0 on a cache hit,
1 otherwise).  Both the empty-repository early return and the main path
store the result in both maps before returning, as the Go code does. -/
def analyzeUserRun (fetch : String → UserData) (now : Int)
    (st : AnalyzerState) (username : String) :
    AnalysisResult × AnalyzerState × Nat :=
  match st.userCache.lookup username with
  | some r => (r, st, 0)
  | none =>
    match st.processedUsers.lookup username with
    | some r => (r, st, 0)
    | none =>
      let d := fetch username
      let res := analyzeUserPure now d.createdAt d.contributions d.repositories
      (res,
        ⟨(username, res) :: st.userCache, (username, res) :: st.processedUsers⟩,
        1)

/-! ## Ledger — internal/db (processed_repositories table) -/

/-- A row of `processed_repositories`, restricted to the columns the
processing contract reads (`repo_id`, `updated_at`). -/
structure RepoRecord where
  repoId : String
  updatedAt : Nat
deriving DecidableEq

/-- Go `Database.WasRepoProcessed`: look up the stored row for `repoId`; with no
row, report `false` (the `sql.ErrNoRows` branch); otherwise report
`!updatedAt.After(storedUpdatedAt)`, i.e. the stored last-modified time is
at least the given one. -/
def wasRepoProcessed (ledger : List RepoRecord) (repoId : String)
    (updatedAt : Nat) : Bool :=
  match ledger.find? (fun r => r.repoId = repoId) with
  | none => false
  | some r => !(decide (r.updatedAt < updatedAt))

/-- Go `Database.InsertProcessedRepo` (`INSERT OR IGNORE` on the unique
`repo_id` key): a row for an already-present identity is dropped. -/
def insertProcessedRepo (ledger : List RepoRecord) (rec : RepoRecord) :
    List RepoRecord :=
  if (ledger.find? (fun r => r.repoId = rec.repoId)).isSome then ledger
  else ledger ++ [rec]


/-! ## RepositoryContentChecker — internal/analyzer checkers and the REST
client's `CheckRepoReleases` -/

/-- Case folding of a Go string, character by character
(`strings.ToLower`). -/
def lowerChars (s : String) : List Char :=
  s.data.map Char.toLower

/-- Go `strings.Contains`, on the character lists of the two strings. -/
def goContains (hay needle : List Char) : Bool :=
  match hay with
  | [] => needle.isEmpty
  | _ :: t => needle.isPrefixOf hay || goContains t needle

/-- README marker one, from `ReadmeChecker.Check`. -/
def downloadMarker : List Char := "download link".data

/-- README marker two, from `ReadmeChecker.Check`. -/
def passwordMarker : List Char := "password : 2025".data

/-- Go `ReadmeChecker.Check`: an empty README is clean; otherwise flag exactly
when the lower-cased text contains both literal markers. -/
def readmeCheck (readme : String) : Bool :=
  if readme = "" then false
  else
    let lower := lowerChars readme
    goContains lower downloadMarker && goContains lower passwordMarker

/-- The loader-file name test shared by `LoaderChecker.Check` (tree entries)
and `Client.CheckRepoReleases` (release asset names). -/
def isLoaderName (s : String) : Bool :=
  lowerChars s = "loader.zip".data || lowerChars s = "loader.rar".data

/-- One release, reduced to its asset names. -/
structure ReleaseInfo where
  assets : List String
deriving DecidableEq

/-- Decoding loop of `Client.CheckRepoReleases`: true when any release has
an asset named `loader.zip` or `loader.rar` (case-insensitive). -/
def checkRepoReleases (releases : List ReleaseInfo) : Bool :=
  releases.any fun rel => rel.assets.any isLoaderName

/-- Go `models.RepoData`, reduced to the fields the two checkers read. -/
structure RepoContentData where
  owner : String
  name : String
  readme : String
  treeEntries : List String
deriving DecidableEq

/-- Go `LoaderChecker.Check`: first the file tree, then the release assets. -/
def loaderCheck (repo : RepoContentData) (releases : List ReleaseInfo) : Bool :=
  repo.treeEntries.any isLoaderName || checkRepoReleases releases

/-- Modelled from the spec: the repository content check
(`Analyzer.CheckRepoFiles`, whose file is not under src/ — only its callers
and the individual checkers are) runs the pluggable checkers and OR-reduces
their verdicts, "an OR across pluggable checkers, mirroring the
account-heuristic design". -/
def contentCheck (repo : RepoContentData) (releases : List ReleaseInfo) : Bool :=
  readmeCheck repo.readme || loaderCheck repo releases


/-! ## CrawlCoordinator — cmd/watchdog/search.go and
internal/processor/processor.go -/

/-- One search-result item, reduced to the fields the minimum-timestamp fold
reads.  `updatedAt = 0` plays the role of the `time.Time` zero value. -/
structure CrawlItem where
  repoId : String
  updatedAt : Nat
deriving DecidableEq

/-- The `oldest` fold of the cmd/watchdog `searchAndProcessRepositories`:
`processRepository` returns `repo.UpdatedAt` for every item — also on the
ledger-skip path — and the caller keeps the minimum, treating the zero
value as unset. -/
def searchOldestFold (items : List CrawlItem) : Nat :=
  items.foldl
    (fun oldest it =>
      if oldest = 0 || it.updatedAt < oldest then it.updatedAt else oldest)
    0

/-- The `oldest` fold of `processor.SearchAndProcessRepositories`: a worker
that finds the item already processed returns before the
`oldest`-update, so ledger-skipped items do not contribute.  The ledger is
the one at page start; items of one page have distinct identities. -/
def processorOldestFold (ledger : List RepoRecord) (items : List CrawlItem) :
    Nat :=
  items.foldl
    (fun oldest it =>
      if wasRepoProcessed ledger it.repoId it.updatedAt then oldest
      else if oldest = 0 || it.updatedAt < oldest then it.updatedAt else oldest)
    0

/-- Specification-side minimum of the items' last-modified times. -/
def minUpdated : List CrawlItem → Option Nat
  | [] => none
  | it :: its =>
    match minUpdated its with
    | none => some it.updatedAt
    | some m => some (Nat.min it.updatedAt m)

/-- A repository as the outer search loop sees it: creation time (what the
query window `created:<T` filters on) and last-modified time (what the
minimum-timestamp cursor is computed from). -/
structure SearchItem where
  created : Nat
  updated : Nat
deriving DecidableEq

/-- The items a query window `created:<bound` matches in a fixed result
set. -/
def windowItems (resultSet : List SearchItem) (bound : Nat) :
    List SearchItem :=
  resultSet.filter (fun it => it.created < bound)

/-- One crawl invocation's returned minimum over a fixed result set: the
cmd/watchdog fold (every matched item contributes its `updated` time),
`0` when the window is empty. -/
def crawlOldest (resultSet : List SearchItem) (bound : Nat) : Nat :=
  (windowItems resultSet bound).foldl
    (fun oldest it =>
      if oldest = 0 || it.updated < oldest then it.updated else oldest)
    0

/-- One iteration of the outer loop of `runSearchMode` (and of the
cmd/watchdog `main` variant): stop when the returned minimum is the zero
value, or when the next query window `created:<oldest` equals the current
one (RFC3339 formatting of distinct seconds is injective, so equality of the
formatted queries is equality of the bounds); otherwise continue with the
new bound. -/
def outerStep (resultSet : List SearchItem) (bound : Nat) : Option Nat :=
  let oldest := crawlOldest resultSet bound
  if oldest = 0 then none
  else if oldest = bound then none
  else some oldest

/-- The outer search loop, fuel-bounded: `some q` when the loop exits while
at query window `q` within `fuel` iterations, `none` when the fuel runs out
with the loop still going. -/
def outerLoop (resultSet : List SearchItem) : Nat → Nat → Option Nat
  | 0, _ => none
  | fuel + 1, bound =>
    match outerStep resultSet bound with
    | none => some bound
    | some next => outerLoop resultSet fuel next

/-! ## Worker — the goroutine body of
`processor.SearchAndProcessRepositories` -/

/-- A ledger write a worker can issue. -/
inductive LedgerWrite where
  | repoInsert (rec : RepoRecord)
  | userInsert (username : String)
  | flagInsert (entityType : String) (entityId : String)
deriving DecidableEq

/-- A search item as the processor worker sees it. -/
structure WorkerItem where
  owner : String
  name : String
  updatedAt : Nat
  diskUsage : Int
deriving DecidableEq

/-- Go `repoID := fmt.Sprintf("%s/%s", owner, name)`. -/
def repoIdOf (it : WorkerItem) : String :=
  it.owner ++ "/" ++ it.name

/-- The worker body of `processor.SearchAndProcessRepositories`, as the list
of ledger writes it issues: consult `WasRepoProcessed` and stop with no
writes when it reports true; otherwise analyze small repositories' owners
(flag plus user upsert, first time only), and always record the repository.
`analyze` is the oracle for `AnalyzeUser`'s outcome and `users` the
`processedUsers` skip-set. -/
def workerWrites (analyze : String → AnalysisResult)
    (ledger : List RepoRecord) (users : List String) (it : WorkerItem) :
    List LedgerWrite :=
  if wasRepoProcessed ledger (repoIdOf it) it.updatedAt then []
  else
    let userWrites :=
      if it.diskUsage < 10 && !(users.contains it.owner) then
        (if (analyze it.owner).suspicious then
          [.flagInsert "user" it.owner] else []) ++
        [.userInsert it.owner]
      else []
    userWrites ++ [.repoInsert ⟨repoIdOf it, it.updatedAt⟩]

/-- Apply a worker's writes to the processed-repositories table (the other
writes target other tables). -/
def applyWrites (ledger : List RepoRecord) : List LedgerWrite → List RepoRecord
  | [] => ledger
  | .repoInsert rec :: ws => applyWrites (insertProcessedRepo ledger rec) ws
  | .userInsert _ :: ws => applyWrites ledger ws
  | .flagInsert _ _ :: ws => applyWrites ledger ws

/-! ## Single-flight question — `Analyzer.AnalyzeUser` under interleaving -/

/-- Where one worker is inside `AnalyzeUser` for a fixed username: before
its cache lookup, after a cache miss and the fetch, or returned with a
result. -/
inductive WorkerPhase where
  | ready
  | fetchedData
  | finished (result : Int)
deriving DecidableEq

/-- Two workers running `AnalyzeUser` for the same username against the
shared result map: `cache` is the `sync.Map` entry for that username,
`f1`/`f2` count the fetch sequences each worker has issued. -/
structure SFState where
  cache : Option Int
  w1 : WorkerPhase
  w2 : WorkerPhase
  f1 : Nat
  f2 : Nat
deriving DecidableEq

/-- One worker's next step in `AnalyzeUser`: a load that hits returns the
cached result with no fetch; a load that misses performs the fetch sequence;
after fetching, the worker stores its result (the deterministic analysis
`v` of the fetched data) and returns it.  A finished worker does nothing. -/
def sfWorkerStep (v : Int) (cache : Option Int) (w : WorkerPhase)
    (fetches : Nat) : WorkerPhase × Option Int × Nat :=
  match w with
  | .ready =>
    match cache with
    | some r => (.finished r, cache, fetches)
    | none => (.fetchedData, cache, fetches + 1)
  | .fetchedData => (.finished v, some v, fetches)
  | .finished r => (.finished r, cache, fetches)

/-- Scheduler step: `false` steps worker 1, `true` steps worker 2. -/
def sfStep (v : Int) (s : SFState) (which : Bool) : SFState :=
  if which then
    let (w, cache, f) := sfWorkerStep v s.cache s.w2 s.f2
    { s with w2 := w, cache := cache, f2 := f }
  else
    let (w, cache, f) := sfWorkerStep v s.cache s.w1 s.f1
    { s with w1 := w, cache := cache, f1 := f }

/-- Run a schedule of interleaved steps. -/
def sfRun (v : Int) (s : SFState) (sched : List Bool) : SFState :=
  sched.foldl (sfStep v) s

/-- Both workers about to analyze the same username, nothing cached. -/
def sfInit : SFState :=
  ⟨none, .ready, .ready, 0, 0⟩

/-! ## Concrete states and invariants used by the theorems below -/

/-- A tracker state whose core budget sits exactly at its safety buffer
while the core reset time lies in the future. -/
def atBufferState : RateLimiterState :=
  ⟨3, 100, 30, 0, 3, 3, 0, 300⟩

/-- A tracker state with the core budget exhausted and a future reset. -/
def exhaustedState : RateLimiterState :=
  ⟨0, 100, 30, 0, 3, 3, 0, 300⟩

/-- A fixed two-repository result set on which the outer query sequence
alternates forever: one repository created at 0 and last modified at 5, one
created at 3 and last modified at 3 (modification never precedes
creation). -/
def cyclingResultSet : List SearchItem :=
  [⟨0, 5⟩, ⟨3, 3⟩]

/-- Invariant of the two-worker `AnalyzeUser` interleaving: the shared map
holds nothing or the deterministic verdict `v`; each worker fetches at most
once (exactly once by the time it has fetched data in hand); any finished
worker holds `v`, and a finished worker or a populated map implies at least
one fetch has happened. -/
structure SFInv (v : Int) (s : SFState) : Prop where
  cacheOk : s.cache = none ∨ s.cache = some v
  f1le : s.f1 ≤ 1
  f2le : s.f2 ≤ 1
  ready1 : s.w1 = .ready → s.f1 = 0
  ready2 : s.w2 = .ready → s.f2 = 0
  fetched1 : s.w1 = .fetchedData → s.f1 = 1
  fetched2 : s.w2 = .fetchedData → s.f2 = 1
  fin1 : ∀ r, s.w1 = .finished r → r = v
  fin2 : ∀ r, s.w2 = .finished r → r = v
  cacheFetched : s.cache = some v → 1 ≤ s.f1 + s.f2
  ran1 : ∀ r, s.w1 = .finished r → 1 ≤ s.f1 + s.f2
  ran2 : ∀ r, s.w2 = .finished r → 1 ≤ s.f1 + s.f2

/-! ## Specification-side notions (stated independently of the folds above,
for comparison against the translated code) -/

/-- Claim-side total stars: sum of stargazer counts. -/
def specTotalStars (repos : List RepoData) : Int :=
  (repos.map (fun r => r.stargazerCount)).sum

/-- Claim-side low-content repository count: reported size below the
threshold 10. -/
def specLowContentCount (repos : List RepoData) : Int :=
  ((repos.filter (fun r => decide (r.diskUsage < 10))).length : Int)

/-- Claim-side low-content-but-starred count: size below 10 and at least
5 stars. -/
def specLowContentStarredCount (repos : List RepoData) : Int :=
  ((repos.filter
    (fun r => decide (r.diskUsage < 10) && decide (5 ≤ r.stargazerCount))).length : Int)

/-- Rule "aged-high-empty": total stars ≥ 10 and low-content count ≥ 20. -/
def ruleAgedHighEmpty (repos : List RepoData) : Prop :=
  10 ≤ specTotalStars repos ∧ 20 ≤ specLowContentCount repos

/-- Rule "low-activity-farmed": low-content-but-starred count ≥ 5 and recent
contributions ≤ 5. -/
def ruleLowActivityFarmed (repos : List RepoData) (contributions : Int) : Prop :=
  5 ≤ specLowContentStarredCount repos ∧ contributions ≤ 5

/-- Rule "burst-new-account": account age < 10 days and total stars ≥ 10. -/
def ruleBurstNewAccount (now createdAt : Int) (repos : List RepoData) : Prop :=
  now - createdAt < 10 * 24 * 60 * 60 ∧ 10 ≤ specTotalStars repos


theorem specTotalStars_cons (r : RepoData) (rs : List RepoData) :
    specTotalStars (r :: rs) = r.stargazerCount + specTotalStars rs := by
  simp [specTotalStars]

theorem specLowContentCount_cons (r : RepoData) (rs : List RepoData) :
    specLowContentCount (r :: rs) =
      (if r.diskUsage < 10 then 1 else 0) + specLowContentCount rs := by
  by_cases h : r.diskUsage < 10
  · simp only [specLowContentCount, List.filter_cons, decide_eq_true h,
      if_true, List.length_cons, if_pos h]
    push_cast
    ring
  · simp only [specLowContentCount, List.filter_cons, decide_eq_false h,
      if_false, if_neg h]
    simp

theorem specLowContentStarredCount_cons (r : RepoData) (rs : List RepoData) :
    specLowContentStarredCount (r :: rs) =
      (if r.diskUsage < 10 ∧ 5 ≤ r.stargazerCount then 1 else 0) +
        specLowContentStarredCount rs := by
  by_cases h1 : r.diskUsage < 10
  · by_cases h2 : (5 : Int) ≤ r.stargazerCount
    · simp only [specLowContentStarredCount, List.filter_cons,
        decide_eq_true h1, decide_eq_true h2, Bool.and_self, if_true,
        List.length_cons, if_pos (And.intro h1 h2)]
      push_cast
      ring
    · simp only [specLowContentStarredCount, List.filter_cons,
        decide_eq_true h1, decide_eq_false h2, Bool.and_false, if_false,
        if_neg (fun hx : _ ∧ _ => h2 hx.2)]
      simp
  · simp only [specLowContentStarredCount, List.filter_cons,
      decide_eq_false h1, Bool.false_and, if_false,
      if_neg (fun hx : _ ∧ _ => h1 hx.1)]
    simp

theorem computeRepoMetricsAux_eq (repos : List RepoData)
    (ts ec sc : Int) :
    computeRepoMetricsAux repos ts ec sc =
      (ts + specTotalStars repos, ec + specLowContentCount repos,
        sc + specLowContentStarredCount repos) := by
  induction repos generalizing ts ec sc with
  | nil =>
    simp [computeRepoMetricsAux, specTotalStars, specLowContentCount,
      specLowContentStarredCount]
  | cons r rs ih =>
    simp only [computeRepoMetricsAux]
    rw [specTotalStars_cons, specLowContentCount_cons,
      specLowContentStarredCount_cons]
    by_cases h1 : r.diskUsage < 10
    · by_cases h2 : r.stargazerCount ≥ 5
      · rw [if_pos h1, if_pos h2, ih, if_pos h1,
          if_pos (And.intro h1 h2)]
        simp only [Prod.mk.injEq]
        refine ⟨by ring, by ring, by ring⟩
      · rw [if_pos h1, if_neg h2, ih, if_pos h1,
          if_neg (fun hx : _ ∧ _ => h2 hx.2)]
        simp only [Prod.mk.injEq]
        refine ⟨by ring, by ring, by ring⟩
    · rw [if_neg h1, ih, if_neg h1,
        if_neg (fun hx : _ ∧ _ => h1 hx.1)]
      simp only [Prod.mk.injEq]
      refine ⟨by ring, by ring, by ring⟩

theorem computeRepoMetrics_eq (repos : List RepoData) :
    computeRepoMetrics repos =
      (specTotalStars repos, specLowContentCount repos,
        specLowContentStarredCount repos) := by
  rw [computeRepoMetrics, computeRepoMetricsAux_eq]
  simp

/-- C4: for every account metrics input, the heuristic verdict of
`Analyzer.AnalyzeUser` is suspicious iff at least one of the three rules
fires: (total stars ≥ 10 and low-content count ≥ 20), or
(low-content-but-starred count ≥ 5 and recent contributions ≤ 5), or
(account age < 10 days and total stars ≥ 10); a repository is low-content
iff its reported size is below 10 and low-content-but-starred iff
additionally it has at least 5 stars. -/
theorem c4_heuristic_verdict_iff (now createdAt contributions : Int)
    (repos : List RepoData) :
    (analyzeUserPure now createdAt contributions repos).suspicious = true ↔
      (ruleAgedHighEmpty repos ∨ ruleLowActivityFarmed repos contributions ∨
        ruleBurstNewAccount now createdAt repos) := by
  by_cases hrep : repos = []
  · subst hrep
    simp [analyzeUserPure, emptyAnalysisResult, ruleAgedHighEmpty,
      ruleLowActivityFarmed, ruleBurstNewAccount, specTotalStars,
      specLowContentCount, specLowContentStarredCount]
  · rw [analyzeUserPure, if_neg hrep]
    simp only [computeRepoMetrics_eq]
    simp only [ruleAgedHighEmpty, ruleLowActivityFarmed, ruleBurstNewAccount,
      minTotalStarsForOriginal, minEmptyCountForOriginal,
      minSuspiciousReposCountForNew, maxContributionsForNew,
      minTotalStarsForRecent, maxAccountAgeForRecent,
      Bool.or_eq_true, Bool.and_eq_true, decide_eq_true_eq, ge_iff_le]
    tauto

/-- C9: `APICache.Get` returns the stored payload iff an entry for the key
exists and its fetch time is within the TTL of the current time (stored at
100 with TTL 60: hit at 159, miss at 161); `APICache.Set` stores the payload
unconditionally, stamped with the current time, so an immediate read with
any positive TTL returns it. -/
theorem c9_cache_ttl :
    (∀ (cache : List (String × APICacheEntry)) (key : String)
        (ttl now : Int) (d : String),
      apiCacheGet cache key ttl now = some d ↔
        ∃ e, cache.lookup key = some e ∧ e.data = d ∧ now - e.timestamp < ttl)
    ∧ (∀ (cache : List (String × APICacheEntry)) (key data : String)
        (now ttl : Int), 0 < ttl →
      apiCacheGet (apiCacheSet cache key data now) key ttl now = some data)
    ∧ apiCacheGet (apiCacheSet [] "k" "v" 100) "k" 60 159 = some "v"
    ∧ apiCacheGet (apiCacheSet [] "k" "v" 100) "k" 60 161 = none := by
  refine ⟨?_, ?_, by decide, by decide⟩
  · intro cache key ttl now d
    unfold apiCacheGet
    cases h : cache.lookup key with
    | none => simp
    | some e =>
      by_cases hlt : now - e.timestamp < ttl
      · simp [hlt, eq_comm]
      · simp [hlt]
  · intro cache key data now ttl h
    simp [apiCacheGet, apiCacheSet, List.lookup, h]

/-- C9 witness: a just-stored payload is readable. -/
theorem c9_cache_ttl_witness :
    apiCacheGet (apiCacheSet [] "a" "p" 5) "a" 10 5 = some "p" :=
  c9_cache_ttl.2.1 [] "a" "p" 5 10 (by norm_num)

theorem find?_append_of_none {α : Type} (p : α → Bool) (l₁ l₂ : List α)
    (h : l₁.find? p = none) : (l₁ ++ l₂).find? p = l₂.find? p := by
  induction l₁ with
  | nil => rfl
  | cons a t ih =>
    cases hpa : p a with
    | true => simp [List.find?, hpa] at h
    | false =>
      simp only [List.find?, hpa] at h
      simp only [List.cons_append, List.find?, hpa]
      exact ih h

/-- C1: `WasRepoProcessed` reports true iff a record for the identity is
stored with last-modified time at least the given one; with no record it
reports false (without error); therefore a worker run on an
unchanged-timestamp repository — one whose identity its first run inserted —
skips it and issues no second ledger write. -/
theorem c1_wasProcessed_spec :
    (∀ (ledger : List RepoRecord) (repoId : String) (t : Nat),
      wasRepoProcessed ledger repoId t = true ↔
        ∃ r, ledger.find? (fun x => x.repoId = repoId) = some r ∧
          t ≤ r.updatedAt)
    ∧ (∀ (ledger : List RepoRecord) (repoId : String) (t : Nat),
      ledger.find? (fun x => x.repoId = repoId) = none →
        wasRepoProcessed ledger repoId t = false)
    ∧ (∀ (analyze : String → AnalysisResult) (ledger : List RepoRecord)
        (users : List String) (it : WorkerItem),
      ledger.find? (fun x => x.repoId = repoIdOf it) = none →
        workerWrites analyze
          (applyWrites ledger (workerWrites analyze ledger users it))
          users it = []) := by
  refine ⟨?_, ?_, ?_⟩
  · intro ledger repoId t
    unfold wasRepoProcessed
    cases h : ledger.find? (fun x => x.repoId = repoId) with
    | none => simp
    | some r => simp [Nat.not_lt]
  · intro ledger repoId t h
    unfold wasRepoProcessed
    rw [h]
  · intro analyze ledger users it hnone
    have hskip : wasRepoProcessed ledger (repoIdOf it) it.updatedAt = false := by
      unfold wasRepoProcessed
      rw [hnone]
    have hrec :
        applyWrites ledger (workerWrites analyze ledger users it) =
          ledger ++ [⟨repoIdOf it, it.updatedAt⟩] := by
      unfold workerWrites
      rw [hskip]
      simp only [Bool.false_eq_true, if_false]
      by_cases hc : it.diskUsage < 10 && !(users.contains it.owner)
      · rw [if_pos hc]
        by_cases hs : (analyze it.owner).suspicious
        · simp only [hs, if_pos]
          show applyWrites (insertProcessedRepo ledger _) [] = _
          unfold applyWrites insertProcessedRepo
          rw [hnone]
          simp
        · simp only [hs, if_neg]
          show applyWrites (insertProcessedRepo ledger _) [] = _
          unfold applyWrites insertProcessedRepo
          rw [hnone]
          simp
      · rw [if_neg hc]
        show applyWrites (insertProcessedRepo ledger _) [] = _
        unfold applyWrites insertProcessedRepo
        rw [hnone]
        simp
    rw [hrec]
    unfold workerWrites
    have : wasRepoProcessed (ledger ++ [⟨repoIdOf it, it.updatedAt⟩])
        (repoIdOf it) it.updatedAt = true := by
      unfold wasRepoProcessed
      rw [find?_append_of_none _ _ _ hnone]
      simp [List.find?]
    rw [this]
    simp

/-- C1 witness: a concrete second run issues no write. -/
theorem c1_wasProcessed_spec_witness :
    workerWrites (fun _ => emptyAnalysisResult)
      (applyWrites []
        (workerWrites (fun _ => emptyAnalysisResult) [] [] ⟨"o", "r", 5, 3⟩))
      [] ⟨"o", "r", 5, 3⟩ = [] :=
  c1_wasProcessed_spec.2.2 (fun _ => emptyAnalysisResult) [] [] ⟨"o", "r", 5, 3⟩
    (by decide)

/-- C10: for an account with no owned repositories that has not been seen
this run, `AnalyzeUser` returns the non-suspicious zero result, with every
heuristic flag false, regardless of the account's creation time or
contribution count; the account is recorded in both result maps, and a
second call for it returns the same result from the cache with no further
fetch. -/
theorem c10_empty_repos_analysis (fetch : String → UserData) (now : Int)
    (st : AnalyzerState) (username : String)
    (h1 : st.userCache.lookup username = none)
    (h2 : st.processedUsers.lookup username = none)
    (h3 : (fetch username).repositories = []) :
    analyzeUserRun fetch now st username =
      (emptyAnalysisResult,
        ⟨(username, emptyAnalysisResult) :: st.userCache,
          (username, emptyAnalysisResult) :: st.processedUsers⟩, 1)
    ∧ (analyzeUserRun fetch now
        ((analyzeUserRun fetch now st username).2.1) username).1 =
        emptyAnalysisResult
    ∧ (analyzeUserRun fetch now
        ((analyzeUserRun fetch now st username).2.1) username).2.2 = 0 := by
  have hfirst : analyzeUserRun fetch now st username =
      (emptyAnalysisResult,
        ⟨(username, emptyAnalysisResult) :: st.userCache,
          (username, emptyAnalysisResult) :: st.processedUsers⟩, 1) := by
    have hres : analyzeUserPure now (fetch username).createdAt
        (fetch username).contributions (fetch username).repositories =
        emptyAnalysisResult := by
      unfold analyzeUserPure
      rw [if_pos h3]
    unfold analyzeUserRun
    rw [h1, h2]
    simp only [hres]
  refine ⟨hfirst, ?_, ?_⟩
  · rw [hfirst]
    unfold analyzeUserRun
    simp [List.lookup]
  · rw [hfirst]
    unfold analyzeUserRun
    simp [List.lookup]

/-- C10 witness: a concrete repository-less account. -/
theorem c10_empty_repos_analysis_witness :
    analyzeUserRun (fun _ => ⟨0, 99, []⟩) 1000 ⟨[], []⟩ "u" =
      (emptyAnalysisResult,
        ⟨[("u", emptyAnalysisResult)], [("u", emptyAnalysisResult)]⟩, 1) :=
  (c10_empty_repos_analysis (fun _ => ⟨0, 99, []⟩) 1000 ⟨[], []⟩ "u"
    rfl rfl rfl).1

theorem goContains_iff_infix (hay needle : List Char) :
    goContains hay needle = true ↔ needle <:+: hay := by
  induction hay with
  | nil =>
    simp [goContains, List.isEmpty_iff, List.infix_nil]
  | cons c t ih =>
    rw [goContains, Bool.or_eq_true, List.isPrefixOf_iff_prefix, ih,
      List.infix_cons_iff]

/-- C5: the repository content check flags a repository iff its lower-cased
README contains both literal markers, or its file tree or some release's
assets contain a file whose lower-cased name is `loader.zip` or
`loader.rar`; and a README carrying only one marker, with no loader file
anywhere, is not flagged. -/
theorem c5_content_check_iff :
    (∀ (repo : RepoContentData) (releases : List ReleaseInfo),
      contentCheck repo releases = true ↔
        ((downloadMarker <:+: lowerChars repo.readme ∧
          passwordMarker <:+: lowerChars repo.readme)
        ∨ (∃ e ∈ repo.treeEntries,
            lowerChars e = "loader.zip".data ∨ lowerChars e = "loader.rar".data)
        ∨ (∃ rel ∈ releases, ∃ a ∈ rel.assets,
            lowerChars a = "loader.zip".data ∨ lowerChars a = "loader.rar".data)))
    ∧ contentCheck ⟨"o", "n", "# [DOWNLOAD LINK] x", []⟩ [] = false
    ∧ contentCheck ⟨"o", "n", "", ["LOADER.ZIP"]⟩ [] = true := by
  refine ⟨?_, by decide, by decide⟩
  intro repo releases
  unfold contentCheck loaderCheck checkRepoReleases readmeCheck isLoaderName
  by_cases hempty : repo.readme = ""
  · rw [if_pos hempty, hempty]
    simp only [Bool.false_or, Bool.or_eq_true, List.any_eq_true,
      Bool.or_eq_true, decide_eq_true_eq]
    constructor
    · intro h
      rcases h with h | h
      · exact Or.inr (Or.inl h)
      · exact Or.inr (Or.inr h)
    · intro h
      rcases h with ⟨hd, _⟩ | h | h
      · exact absurd (List.infix_nil.mp hd) (by decide)
      · exact Or.inl h
      · exact Or.inr h
  · rw [if_neg hempty]
    simp only [Bool.or_eq_true, Bool.and_eq_true, goContains_iff_infix,
      List.any_eq_true, decide_eq_true_eq]

theorem checkRateLimit_core_eq (st : RateLimiterState) (now : Int) :
    checkRateLimit st "core" now =
      if st.coreRemaining < st.coreLimitBuffer then
        if now > st.coreReset then (.proceed, st)
        else (.waited (st.coreReset - now + 5),
          { st with coreRemaining := st.coreLimitBuffer + 1 })
      else (.proceed, st) := rfl

theorem checkRateLimit_search_eq (st : RateLimiterState) (now : Int) :
    checkRateLimit st "search" now =
      if st.searchRemaining < st.searchLimitBuffer then
        if now > st.searchReset then (.proceed, st)
        else (.waited (st.searchReset - now + 5),
          { st with searchRemaining := st.searchLimitBuffer + 1 })
      else (.proceed, st) := rfl

/-- C2 counterexample: with the remaining count exactly at the buffer
(`coreRemaining = coreLimitBuffer = 3`) and the reset time in the future,
`CheckRateLimit` returns immediately without suspending or touching the
state — the claim demands a suspension until reset plus grace here, since
the count is "at or below" the buffer. -/
theorem c2_admit_counterexample :
    atBufferState.coreRemaining = atBufferState.coreLimitBuffer ∧
    (0 : Int) < atBufferState.coreReset ∧
    checkRateLimit atBufferState "core" 0 = (.proceed, atBufferState) := by
  refine ⟨rfl, by decide, ?_⟩
  rw [checkRateLimit_core_eq]
  decide

/-- C2 amended: `CheckRateLimit` returns immediately whenever the remaining
count is at least the buffer (strictly below the buffer is what triggers the
wait logic); when the count is strictly below the buffer and the reset time
has not passed, it suspends for `reset − now + 5s` and sets that budget's
remaining count to buffer + 1; when the reset time has passed it proceeds
without waiting.  Both budget classes behave alike. -/
theorem c2_admit_amended (st : RateLimiterState) (now : Int) :
    (st.coreLimitBuffer ≤ st.coreRemaining →
      checkRateLimit st "core" now = (.proceed, st))
    ∧ (st.coreRemaining < st.coreLimitBuffer → st.coreReset < now →
      checkRateLimit st "core" now = (.proceed, st))
    ∧ (st.coreRemaining < st.coreLimitBuffer → now ≤ st.coreReset →
      checkRateLimit st "core" now = (.waited (st.coreReset - now + 5),
        { st with coreRemaining := st.coreLimitBuffer + 1 }))
    ∧ (st.searchLimitBuffer ≤ st.searchRemaining →
      checkRateLimit st "search" now = (.proceed, st))
    ∧ (st.searchRemaining < st.searchLimitBuffer → st.searchReset < now →
      checkRateLimit st "search" now = (.proceed, st))
    ∧ (st.searchRemaining < st.searchLimitBuffer → now ≤ st.searchReset →
      checkRateLimit st "search" now = (.waited (st.searchReset - now + 5),
        { st with searchRemaining := st.searchLimitBuffer + 1 })) := by
  refine ⟨?_, ?_, ?_, ?_, ?_, ?_⟩
  · intro h
    rw [checkRateLimit_core_eq, if_neg (by omega)]
  · intro h1 h2
    rw [checkRateLimit_core_eq, if_pos h1, if_pos h2]
  · intro h1 h2
    rw [checkRateLimit_core_eq, if_pos h1, if_neg (by omega)]
  · intro h
    rw [checkRateLimit_search_eq, if_neg (by omega)]
  · intro h1 h2
    rw [checkRateLimit_search_eq, if_pos h1, if_pos h2]
  · intro h1 h2
    rw [checkRateLimit_search_eq, if_pos h1, if_neg (by omega)]

/-- C2 amended witness: an exhausted core budget with a future reset
suspends until reset + 5s and leaves the count at buffer + 1. -/
theorem c2_admit_amended_witness :
    checkRateLimit exhaustedState "core" 0 = (.waited 105,
      { exhaustedState with coreRemaining := 4 }) :=
  (c2_admit_amended exhaustedState 0).2.2.1 (by decide) (by decide)

theorem checkRateLimit_notSearch_eq (st : RateLimiterState) (apiType : String)
    (now : Int) (h : apiType ≠ "search") :
    checkRateLimit st apiType now =
      if st.coreRemaining < st.coreLimitBuffer then
        if now > st.coreReset then (.proceed, st)
        else (.waited (st.coreReset - now + 5),
          { st with coreRemaining := st.coreLimitBuffer + 1 })
      else (.proceed, st) := by
  unfold checkRateLimit
  simp only [if_neg h]

/-- C8 counterexample: `CheckRateLimit`'s post-wait path raises the tracked
core remaining count from 0 to buffer + 1 = 4 — an increase produced by
neither a response's rate-limit metadata nor the periodic status query, so
the count does not "only decrease" between refreshes. -/
theorem c8_quota_counterexample :
    exhaustedState.coreRemaining <
      ((checkRateLimit exhaustedState "core" 0).2).coreRemaining := by
  rw [checkRateLimit_core_eq]
  decide

/-- C8 amended: between refreshes `CheckRateLimit` never decrements a
tracked remaining count: it leaves each budget's count unchanged or sets it
to that budget's buffer + 1 (the post-wait optimistic reset, which can
increase it), and it never touches the reset times.  Server-authoritative
values arrive only through `UpdateFromResponse` — which overwrites exactly
the budget matching the request with the header value and leaves the other
untouched — and through `FetchRateLimits`, which is a no-op within the
check interval and otherwise installs the server snapshot for both
budgets. -/
theorem c8_quota_amended (st : RateLimiterState) (apiType : String)
    (now v : Int) (resetHeader : Option Int) (isSearch : Bool)
    (snap : RateLimitSnapshot) :
    (((checkRateLimit st apiType now).2.coreRemaining = st.coreRemaining ∨
      (checkRateLimit st apiType now).2.coreRemaining = st.coreLimitBuffer + 1)
    ∧ ((checkRateLimit st apiType now).2.searchRemaining = st.searchRemaining ∨
      (checkRateLimit st apiType now).2.searchRemaining = st.searchLimitBuffer + 1)
    ∧ (checkRateLimit st apiType now).2.coreReset = st.coreReset
    ∧ (checkRateLimit st apiType now).2.searchReset = st.searchReset)
    ∧ ((updateFromResponse st true (some v) resetHeader now).searchRemaining = v
    ∧ (updateFromResponse st true (some v) resetHeader now).coreRemaining =
        st.coreRemaining
    ∧ (updateFromResponse st false (some v) resetHeader now).coreRemaining = v
    ∧ (updateFromResponse st false (some v) resetHeader now).searchRemaining =
        st.searchRemaining
    ∧ (updateFromResponse st isSearch none resetHeader now).coreRemaining =
        st.coreRemaining
    ∧ (updateFromResponse st isSearch none resetHeader now).searchRemaining =
        st.searchRemaining)
    ∧ ((now - st.lastCheck < st.checkInterval →
        fetchRateLimits st now snap = st)
    ∧ (st.checkInterval ≤ now - st.lastCheck →
        (fetchRateLimits st now snap).coreRemaining = snap.coreRemaining ∧
        (fetchRateLimits st now snap).searchRemaining = snap.searchRemaining)) := by
  have hck :
      ((checkRateLimit st apiType now).2.coreRemaining = st.coreRemaining ∨
        (checkRateLimit st apiType now).2.coreRemaining = st.coreLimitBuffer + 1)
      ∧ ((checkRateLimit st apiType now).2.searchRemaining = st.searchRemaining ∨
        (checkRateLimit st apiType now).2.searchRemaining = st.searchLimitBuffer + 1)
      ∧ (checkRateLimit st apiType now).2.coreReset = st.coreReset
      ∧ (checkRateLimit st apiType now).2.searchReset = st.searchReset := by
    by_cases h : apiType = "search"
    · subst h
      rw [checkRateLimit_search_eq]
      split
      · split
        · exact ⟨Or.inl rfl, Or.inl rfl, rfl, rfl⟩
        · exact ⟨Or.inl rfl, Or.inr rfl, rfl, rfl⟩
      · exact ⟨Or.inl rfl, Or.inl rfl, rfl, rfl⟩
    · rw [checkRateLimit_notSearch_eq st apiType now h]
      split
      · split
        · exact ⟨Or.inl rfl, Or.inl rfl, rfl, rfl⟩
        · exact ⟨Or.inr rfl, Or.inl rfl, rfl, rfl⟩
      · exact ⟨Or.inl rfl, Or.inl rfl, rfl, rfl⟩
  refine ⟨hck, ?_, ?_, ?_⟩
  · cases resetHeader <;> cases isSearch <;>
      simp [updateFromResponse]
  · intro h
    unfold fetchRateLimits
    rw [if_pos h]
  · intro h
    unfold fetchRateLimits
    rw [if_neg (by omega)]
    exact ⟨rfl, rfl⟩

/-- C8 amended witness: a concrete in-interval status query is a no-op and
an out-of-interval one installs the snapshot. -/
theorem c8_quota_amended_witness :
    fetchRateLimits atBufferState 100 ⟨9, 9, 9, 9⟩ = atBufferState ∧
    (fetchRateLimits atBufferState 400 ⟨9, 9, 9, 9⟩).coreRemaining = 9 :=
  ⟨(c8_quota_amended atBufferState "core" 100 0 none false ⟨9, 9, 9, 9⟩).2.2.1
      (by decide),
    ((c8_quota_amended atBufferState "core" 400 0 none false ⟨9, 9, 9, 9⟩).2.2.2
      (by decide)).1⟩

theorem oldestFoldAux (l : List CrawlItem) (acc : Nat)
    (hl : ∀ it ∈ l, it.updatedAt ≠ 0) (ha : acc ≠ 0) :
    l.foldl
      (fun oldest it =>
        if oldest = 0 || it.updatedAt < oldest then it.updatedAt else oldest)
      acc =
      (match minUpdated l with
      | none => acc
      | some m => Nat.min acc m) := by
  induction l generalizing acc with
  | nil => rfl
  | cons it its ih =>
    rw [List.foldl_cons]
    have htail : ∀ x ∈ its, x.updatedAt ≠ 0 :=
      fun x hx => hl x (List.mem_cons_of_mem _ hx)
    have hupd : it.updatedAt ≠ 0 := hl it (List.mem_cons_self it its)
    have hstep : (if acc = 0 || it.updatedAt < acc then it.updatedAt else acc)
        = if it.updatedAt < acc then it.updatedAt else acc := by
      simp [ha]
    rw [hstep]
    by_cases hcmp : it.updatedAt < acc
    · rw [if_pos hcmp, ih it.updatedAt htail hupd]
      cases hmu : minUpdated its with
      | none =>
        simp only [minUpdated, hmu, Nat.min_def]
        split_ifs <;> omega
      | some m =>
        simp only [minUpdated, hmu, Nat.min_def]
        split_ifs <;> omega
    · rw [if_neg hcmp, ih acc htail ha]
      cases hmu : minUpdated its with
      | none =>
        simp only [minUpdated, hmu, Nat.min_def]
        split_ifs <;> omega
      | some m =>
        simp only [minUpdated, hmu, Nat.min_def]
        split_ifs <;> omega

theorem searchOldestFold_eq (items : List CrawlItem)
    (h : ∀ it ∈ items, it.updatedAt ≠ 0) :
    searchOldestFold items = (minUpdated items).getD 0 := by
  cases items with
  | nil => rfl
  | cons it its =>
    have htail : ∀ x ∈ its, x.updatedAt ≠ 0 :=
      fun x hx => h x (List.mem_cons_of_mem _ hx)
    have hupd : it.updatedAt ≠ 0 := h it (List.mem_cons_self it its)
    unfold searchOldestFold
    rw [List.foldl_cons]
    have h0 : (if (0 : Nat) = 0 || it.updatedAt < 0 then it.updatedAt else 0)
        = it.updatedAt := by simp
    rw [h0, oldestFoldAux its it.updatedAt htail hupd]
    cases hmu : minUpdated its <;>
      simp [minUpdated, hmu]

theorem procFoldAux (ledger : List RepoRecord) (l : List CrawlItem)
    (acc : Nat) :
    l.foldl
      (fun oldest it =>
        if wasRepoProcessed ledger it.repoId it.updatedAt then oldest
        else if oldest = 0 || it.updatedAt < oldest then it.updatedAt
          else oldest)
      acc =
    (l.filter
        (fun it => !wasRepoProcessed ledger it.repoId it.updatedAt)).foldl
      (fun oldest it =>
        if oldest = 0 || it.updatedAt < oldest then it.updatedAt else oldest)
      acc := by
  induction l generalizing acc with
  | nil => rfl
  | cons it its ih =>
    rw [List.foldl_cons, List.filter_cons]
    cases hskip : wasRepoProcessed ledger it.repoId it.updatedAt with
    | true =>
      simp only [hskip, eq_self_iff_true, if_true, Bool.not_true,
        Bool.false_eq_true, if_false]
      exact ih acc
    | false =>
      simp only [hskip, Bool.false_eq_true, if_false, Bool.not_false,
        eq_self_iff_true, if_true]
      rw [List.foldl_cons]
      exact ih _

theorem processorOldestFold_eq_filter (ledger : List RepoRecord)
    (items : List CrawlItem) :
    processorOldestFold ledger items =
      searchOldestFold (items.filter
        (fun it => !wasRepoProcessed ledger it.repoId it.updatedAt)) := by
  unfold processorOldestFold searchOldestFold
  exact procFoldAux ledger items 0

/-- C7 counterexample: the minimum over every fetched item of
`[⟨"a/r", 3⟩, ⟨"b/s", 7⟩]` is 3, but with `a/r` already recorded in the
ledger at time 3 the processor variant skips it before the `oldest` update
and returns 7 — ledger-skipped items do not enter the minimum there. -/
theorem c7_min_timestamp_counterexample :
    minUpdated [⟨"a/r", 3⟩, ⟨"b/s", 7⟩] = some 3 ∧
    processorOldestFold [⟨"a/r", 3⟩] [⟨"a/r", 3⟩, ⟨"b/s", 7⟩] = 7 := by
  constructor
  · rfl
  · rfl

/-- C7 amended: in the cmd/watchdog worker every fetched item — including
ledger-skipped ones — contributes its last-modified time, and the crawl
returns the minimum over all items; in the `internal/processor` variant a
ledger-skipped item returns before the minimum update, so the crawl returns
the minimum over only the non-skipped items (the Go zero value when all
were skipped).  Item timestamps are taken non-zero, as `time.Time` zero
marks the unset minimum. -/
theorem c7_min_timestamp_amended (ledger : List RepoRecord)
    (items : List CrawlItem) (h : ∀ it ∈ items, it.updatedAt ≠ 0) :
    searchOldestFold items = (minUpdated items).getD 0 ∧
    processorOldestFold ledger items =
      (minUpdated (items.filter
        (fun it => !wasRepoProcessed ledger it.repoId it.updatedAt))).getD 0 := by
  refine ⟨searchOldestFold_eq items h, ?_⟩
  rw [processorOldestFold_eq_filter, searchOldestFold_eq]
  intro it hit
  exact h it (List.mem_of_mem_filter hit)

/-- C7 amended witness: the folds evaluated on the counterexample data. -/
theorem c7_min_timestamp_amended_witness :
    searchOldestFold [⟨"a/r", 3⟩, ⟨"b/s", 7⟩] =
      (minUpdated [⟨"a/r", 3⟩, ⟨"b/s", 7⟩]).getD 0 ∧
    processorOldestFold [⟨"a/r", 3⟩] [⟨"a/r", 3⟩, ⟨"b/s", 7⟩] =
      (minUpdated (([⟨"a/r", 3⟩, ⟨"b/s", 7⟩] : List CrawlItem).filter
        (fun it => !wasRepoProcessed [⟨"a/r", 3⟩] it.repoId it.updatedAt))).getD
        0 :=
  c7_min_timestamp_amended [⟨"a/r", 3⟩] [⟨"a/r", 3⟩, ⟨"b/s", 7⟩]
    (by decide)

/-- C6 counterexample: on `cyclingResultSet` the window `created:<3` yields
minimum 5 and the window `created:<5` yields minimum 3 back, so the
query sequence is a two-cycle — the consecutive-equality fixed-point check
never fires, repeated crawls never converge, and the outer loop is still
running after 50 iterations.  The loop filters on creation time while the
cursor is the minimum modification time, so a fixed result set does not
force convergence. -/
theorem c6_convergence_counterexample :
    outerStep cyclingResultSet 3 = some 5 ∧
    outerStep cyclingResultSet 5 = some 3 ∧
    outerLoop cyclingResultSet 50 3 = none := by
  refine ⟨rfl, rfl, ?_⟩
  decide

/-- C6 amended: whenever the outer search loop does exit, it exits in the
Done state — at a query window whose returned minimum is the zero value
(no further results) or equals the window bound itself (a fixed point,
since the next query would be identical); but such an exit is not
guaranteed on every fixed result set. -/
theorem c6_done_amended (resultSet : List SearchItem) (fuel bound q : Nat)
    (h : outerLoop resultSet fuel bound = some q) :
    crawlOldest resultSet q = 0 ∨ crawlOldest resultSet q = q := by
  induction fuel generalizing bound with
  | zero => cases h
  | succ n ih =>
    rw [outerLoop] at h
    cases hstep : outerStep resultSet bound with
    | none =>
      rw [hstep] at h
      have hq : bound = q := by
        cases h
        rfl
      subst hq
      unfold outerStep at hstep
      by_cases h0 : crawlOldest resultSet bound = 0
      · exact Or.inl h0
      · rw [if_neg h0] at hstep
        by_cases h1 : crawlOldest resultSet bound = bound
        · exact Or.inr h1
        · rw [if_neg h1] at hstep
          cases hstep
    | some next =>
      rw [hstep] at h
      exact ih next h

/-- C6 amended witness: a one-repository result set reaches Done at window
5, whose minimum equals the bound. -/
theorem c6_done_amended_witness :
    crawlOldest [(⟨0, 5⟩ : SearchItem)] 5 = 0 ∨
      crawlOldest [(⟨0, 5⟩ : SearchItem)] 5 = 5 :=
  c6_done_amended [⟨0, 5⟩] 3 7 5 (by decide)

theorem sfInv_init (v : Int) : SFInv v sfInit where
  cacheOk := Or.inl rfl
  f1le := Nat.zero_le 1
  f2le := Nat.zero_le 1
  ready1 := fun _ => rfl
  ready2 := fun _ => rfl
  fetched1 := fun h => nomatch h
  fetched2 := fun h => nomatch h
  fin1 := fun _ h => nomatch h
  fin2 := fun _ h => nomatch h
  cacheFetched := fun h => nomatch h
  ran1 := fun _ h => nomatch h
  ran2 := fun _ h => nomatch h

theorem sfInv_step (v : Int) (s : SFState) (hs : SFInv v s) (which : Bool) :
    SFInv v (sfStep v s which) := by
  cases which
  case false =>
    cases hw : s.w1 with
    | ready =>
      cases hcc : s.cache with
      | none =>
        have hstep : sfStep v s false =
            { s with w1 := .fetchedData, cache := none, f1 := s.f1 + 1 } := by
          unfold sfStep
          rw [if_neg (by simp), hw, hcc]
          rfl
        have hz : s.f1 = 0 := hs.ready1 hw
        rw [hstep]
        exact {
          cacheOk := Or.inl rfl
          f1le := by dsimp only; omega
          f2le := hs.f2le
          ready1 := fun h => nomatch h
          ready2 := hs.ready2
          fetched1 := fun _ => by dsimp only; omega
          fetched2 := hs.fetched2
          fin1 := fun r h => nomatch h
          fin2 := hs.fin2
          cacheFetched := fun h => nomatch h
          ran1 := fun r h => nomatch h
          ran2 := fun r _ => by dsimp only; omega }
      | some rc =>
        have hrc : rc = v := by
          rcases hs.cacheOk with h | h
          · rw [hcc] at h
            cases h
          · rw [hcc] at h
            injection h with h'
        have hstep : sfStep v s false =
            { s with w1 := .finished rc, cache := some rc, f1 := s.f1 } := by
          unfold sfStep
          rw [if_neg (by simp), hw, hcc]
          rfl
        have hone : 1 ≤ s.f1 + s.f2 := hs.cacheFetched (hrc ▸ hcc)
        rw [hstep]
        exact {
          cacheOk := Or.inr (by rw [hrc])
          f1le := hs.f1le
          f2le := hs.f2le
          ready1 := fun h => nomatch h
          ready2 := hs.ready2
          fetched1 := fun h => nomatch h
          fetched2 := hs.fetched2
          fin1 := fun r h => by injection h with h'; exact h' ▸ hrc
          fin2 := hs.fin2
          cacheFetched := fun _ => hone
          ran1 := fun r _ => hone
          ran2 := fun r _ => hone }
    | fetchedData =>
      have hstep : sfStep v s false =
          { s with w1 := .finished v, cache := some v, f1 := s.f1 } := by
        unfold sfStep
        rw [if_neg (by simp), hw]
        rfl
      have hone : s.f1 = 1 := hs.fetched1 hw
      rw [hstep]
      exact {
        cacheOk := Or.inr rfl
        f1le := hs.f1le
        f2le := hs.f2le
        ready1 := fun h => nomatch h
        ready2 := hs.ready2
        fetched1 := fun h => nomatch h
        fetched2 := hs.fetched2
        fin1 := fun r h => by injection h with h'; exact h'.symm
        fin2 := hs.fin2
        cacheFetched := fun _ => by dsimp only; omega
        ran1 := fun r _ => by dsimp only; omega
        ran2 := fun r _ => by dsimp only; omega }
    | finished rr =>
      have hstep : sfStep v s false =
          { s with w1 := .finished rr, cache := s.cache, f1 := s.f1 } := by
        unfold sfStep
        rw [if_neg (by simp), hw]
        rfl
      rw [hstep]
      exact {
        cacheOk := hs.cacheOk
        f1le := hs.f1le
        f2le := hs.f2le
        ready1 := fun h => nomatch h
        ready2 := hs.ready2
        fetched1 := fun h => nomatch h
        fetched2 := hs.fetched2
        fin1 := fun r h => by injection h with h'; exact h' ▸ hs.fin1 rr hw
        fin2 := hs.fin2
        cacheFetched := hs.cacheFetched
        ran1 := fun r _ => hs.ran1 rr hw
        ran2 := fun r h => hs.ran2 r h }
  case true =>
    cases hw : s.w2 with
    | ready =>
      cases hcc : s.cache with
      | none =>
        have hstep : sfStep v s true =
            { s with w2 := .fetchedData, cache := none, f2 := s.f2 + 1 } := by
          unfold sfStep
          rw [if_pos rfl, hw, hcc]
          rfl
        have hz : s.f2 = 0 := hs.ready2 hw
        rw [hstep]
        exact {
          cacheOk := Or.inl rfl
          f1le := hs.f1le
          f2le := by dsimp only; omega
          ready1 := hs.ready1
          ready2 := fun h => nomatch h
          fetched1 := hs.fetched1
          fetched2 := fun _ => by dsimp only; omega
          fin1 := hs.fin1
          fin2 := fun r h => nomatch h
          cacheFetched := fun h => nomatch h
          ran1 := fun r _ => by dsimp only; omega
          ran2 := fun r h => nomatch h }
      | some rc =>
        have hrc : rc = v := by
          rcases hs.cacheOk with h | h
          · rw [hcc] at h
            cases h
          · rw [hcc] at h
            injection h with h'
        have hstep : sfStep v s true =
            { s with w2 := .finished rc, cache := some rc, f2 := s.f2 } := by
          unfold sfStep
          rw [if_pos rfl, hw, hcc]
          rfl
        have hone : 1 ≤ s.f1 + s.f2 := hs.cacheFetched (hrc ▸ hcc)
        rw [hstep]
        exact {
          cacheOk := Or.inr (by rw [hrc])
          f1le := hs.f1le
          f2le := hs.f2le
          ready1 := hs.ready1
          ready2 := fun h => nomatch h
          fetched1 := hs.fetched1
          fetched2 := fun h => nomatch h
          fin1 := hs.fin1
          fin2 := fun r h => by injection h with h'; exact h' ▸ hrc
          cacheFetched := fun _ => hone
          ran1 := fun r _ => hone
          ran2 := fun r _ => hone }
    | fetchedData =>
      have hstep : sfStep v s true =
          { s with w2 := .finished v, cache := some v, f2 := s.f2 } := by
        unfold sfStep
        rw [if_pos rfl, hw]
        rfl
      have hone : s.f2 = 1 := hs.fetched2 hw
      rw [hstep]
      exact {
        cacheOk := Or.inr rfl
        f1le := hs.f1le
        f2le := hs.f2le
        ready1 := hs.ready1
        ready2 := fun h => nomatch h
        fetched1 := hs.fetched1
        fetched2 := fun h => nomatch h
        fin1 := hs.fin1
        fin2 := fun r h => by injection h with h'; exact h'.symm
        cacheFetched := fun _ => by dsimp only; omega
        ran1 := fun r _ => by dsimp only; omega
        ran2 := fun r _ => by dsimp only; omega }
    | finished rr =>
      have hstep : sfStep v s true =
          { s with w2 := .finished rr, cache := s.cache, f2 := s.f2 } := by
        unfold sfStep
        rw [if_pos rfl, hw]
        rfl
      rw [hstep]
      exact {
        cacheOk := hs.cacheOk
        f1le := hs.f1le
        f2le := hs.f2le
        ready1 := hs.ready1
        ready2 := fun h => nomatch h
        fetched1 := hs.fetched1
        fetched2 := fun h => nomatch h
        fin1 := hs.fin1
        fin2 := fun r h => by injection h with h'; exact h' ▸ hs.fin2 rr hw
        cacheFetched := hs.cacheFetched
        ran1 := fun r h => hs.ran1 r h
        ran2 := fun r _ => hs.ran2 rr hw }

theorem sfRun_inv (v : Int) (sched : List Bool) :
    ∀ s, SFInv v s → SFInv v (sfRun v s sched) := by
  induction sched with
  | nil => exact fun s h => h
  | cons b bs ih => exact fun s h => ih _ (sfInv_step v s h b)

/-- C3 counterexample: under the schedule in which both workers pass their
cache check before either stores (worker 1 misses, worker 2 misses, both
store and finish), both finish with the verdict 7 but two fetch sequences
are performed — not the exactly one the claim requires.  `AnalyzeUser` has
no in-flight coordination: a concurrent second caller that misses the
`sync.Map` repeats the fetch. -/
theorem c3_single_flight_counterexample :
    (sfRun 7 sfInit [false, true, false, true]).w1 = .finished 7 ∧
    (sfRun 7 sfInit [false, true, false, true]).w2 = .finished 7 ∧
    (sfRun 7 sfInit [false, true, false, true]).f1 +
      (sfRun 7 sfInit [false, true, false, true]).f2 = 2 := by
  refine ⟨rfl, rfl, rfl⟩

/-- C3 amended: under every interleaving, each of the two workers performs
at most one fetch sequence (so between one and two in total once the map is
populated), every finished worker holds the identical deterministic verdict
`v`, and a worker that starts only after the first has stored its result
reuses it, for exactly one fetch in total — but interleaved cache misses can
duplicate the fetch, so "exactly one" does not hold for every schedule. -/
theorem c3_single_flight_amended (v : Int) (sched : List Bool) :
    (sfRun v sfInit sched).f1 ≤ 1
    ∧ (sfRun v sfInit sched).f2 ≤ 1
    ∧ (∀ r, (sfRun v sfInit sched).w1 = .finished r → r = v)
    ∧ (∀ r, (sfRun v sfInit sched).w2 = .finished r → r = v)
    ∧ (∀ r, (sfRun v sfInit sched).w1 = .finished r →
        1 ≤ (sfRun v sfInit sched).f1 + (sfRun v sfInit sched).f2)
    ∧ (sfRun v sfInit [false, false, true]).w2 = .finished v
    ∧ (sfRun v sfInit [false, false, true]).f1 +
        (sfRun v sfInit [false, false, true]).f2 = 1 := by
  have h := sfRun_inv v sched sfInit (sfInv_init v)
  exact ⟨h.f1le, h.f2le, h.fin1, h.fin2, h.ran1, rfl, rfl⟩

/-- C3 amended witness: the fetching worker of a concrete two-step schedule
finished with the verdict, witnessing at least one fetch. -/
theorem c3_single_flight_amended_witness :
    (7 : Int) = 7 ∧
    1 ≤ (sfRun 7 sfInit [false, false]).f1 +
      (sfRun 7 sfInit [false, false]).f2 :=
  ⟨(c3_single_flight_amended 7 [false, false]).2.2.1 7 rfl,
    (c3_single_flight_amended 7 [false, false]).2.2.2.2.1 7 rfl⟩
